import Mathlib

set_option maxRecDepth 6000

/-!
Verification of the pyhula installation patcher (`pyhula_patcher.py`).

The patcher is a text-rewriting program: each patch reads a file, checks a
marker token for idempotency, locates a code block either by a literal
multi-line pattern plus an indentation-based line scan (mavlink, userapi)
or by literal statement patterns (udp), rewrites the text and writes it
back.  We embed the text transformations as pure functions on `List Char`
(file content) and `List (List Char)` (the `content.split('\n')` line
view), and the orchestration (`apply_all_patches`, `create_backup`,
`restore_backup`, the CLI restore mode) as pure state-passing functions.
-/

namespace Pyhula

/-- File text / line text, the embedding of a Python `str`. -/
abbrev Str := List Char

/-- Coerce a Lean string literal to the `List Char` representation. -/
def strOf (s : String) : Str := s.data

/-- Python whitespace as recognised by `str.strip()` / `str.lstrip()`
(ASCII part; the sources only contain ASCII whitespace). -/
def isSpaceChar (c : Char) : Bool :=
  c = ' ' || c = '\t' || c = '\n' || c = '\r' || c = '\x0b' || c = '\x0c'

/-- `line.lstrip()`. -/
def lstrip (l : Str) : Str := l.dropWhile isSpaceChar

/-- `line.rstrip()`. -/
def rstrip (l : Str) : Str := (l.reverse.dropWhile isSpaceChar).reverse

/-- `line.strip()`. -/
def pstrip (l : Str) : Str := rstrip (lstrip l)

/-- `len(line) - len(line.lstrip())`: the indentation width used by both
block scans (`pyhula_patcher.py` lines 119, 125, 260, 267). -/
def indentOf (l : Str) : Nat := l.length - (lstrip l).length

/-- `content.split('\n')` (keeps empty segments, like Python). -/
def splitNl : Str → List Str
  | [] => [[]]
  | c :: cs =>
    if c = '\n' then [] :: splitNl cs
    else
      match splitNl cs with
      | [] => [[c]]
      | l :: ls => (c :: l) :: ls

/-- `'\n'.join(lines)`. -/
def joinNl : List Str → Str
  | [] => []
  | [l] => l
  | l :: l2 :: ls => l ++ '\n' :: joinNl (l2 :: ls)

/-- `sub in s`: Python substring containment. -/
def occursIn (sub : Str) : Str → Bool
  | [] => sub.isEmpty
  | c :: cs => sub.isPrefixOf (c :: cs) || occursIn sub cs

/-- Number of positions of `s` at which `sub` starts (used to state
"contains the marker token exactly once"). -/
def countOcc (sub : Str) : Str → Nat
  | [] => if sub.isEmpty then 1 else 0
  | c :: cs => (if sub.isPrefixOf (c :: cs) then 1 else 0) + countOcc sub cs

/-- Outcome of one patch function on an existing file, one constructor per
disjoint return path of the Python code. -/
inductive PatchOutcome
  | applied
  | alreadyApplied
  | patternNotFound
deriving DecidableEq, Repr

end Pyhula

namespace Pyhula

/-! ### Literal strings of `patch_mavlink_header` (lines 63-145) -/

/-- `"# PYHULA_PATCH_APPLIED"` (line 76). -/
def mavlinkMarker : Str := strOf "# PYHULA_PATCH_APPLIED"

/-- The per-line opening-signature test string of the mavlink scan
(line 117). -/
def packDefSig : Str := strOf "def pack(self, force_mavlink1=False):"

/-- `original_pack_pattern` (lines 81-85), trailing 8 spaces included. -/
def originalPackPattern : Str :=
  strOf "    def pack(self, force_mavlink1=False):\n        \"\"\"\n        pack the MAVLink header into a byte string\n        \"\"\"\n        "

/-- `fixed_pack_code` (lines 87-106), byte-for-byte, including the
all-blank lines of 12 and 8 spaces. -/
def fixedPackCode : Str :=
  strOf "    def pack(self, force_mavlink1=False):\n        \"\"\"\n        pack the MAVLink header into a byte string\n        \"\"\"\n        # PYHULA_PATCH_APPLIED: Fix struct packing with proper integer conversion\n        try:\n            # Ensure all values are proper integers\n            magic = int(self.magic) if hasattr(self, \x27magic\x27) else 254\n            length = int(self.length) if hasattr(self, \x27length\x27) else 0\n            seq = int(self.seq) if hasattr(self, \x27seq\x27) else 0\n            srcSystem = int(self.srcSystem) if hasattr(self, \x27srcSystem\x27) else 255\n            srcComponent = int(self.srcComponent) if hasattr(self, \x27srcComponent\x27) else 190\n            msgId = int(self.msgId) if hasattr(self, \x27msgId\x27) else 0\n            \n            return struct.pack(\x27<BBBBBB\x27, magic, length, seq, srcSystem, srcComponent, msgId)\n        except (ValueError, TypeError) as e:\n            # Fallback with default values if conversion fails\n            print(f\"MAVLink header pack warning: \x7be\x7d, using defaults\")\n            return struct.pack(\x27<BBBBBB\x27, 254, 0, 0, 255, 190, 0)\n        "

/-- The mavlink scan's block-terminator test (line 126):
`line.strip() and current_indent <= indent_level and not
line.strip().startswith('"""')`. -/
def mavTerm (lvl : Nat) (l : Str) : Bool :=
  !(pstrip l).isEmpty && decide (indentOf l ≤ lvl)
    && !((strOf "\"\"\"").isPrefixOf (pstrip l))

/-- The line loop of `patch_mavlink_header` (lines 116-133): state is
`in_pack_method` and `indent_level`. -/
def mavlinkScan : List Str → Bool → Nat → List Str
  | [], _, _ => []
  | line :: rest, inPack, lvl =>
    if occursIn packDefSig line then
      splitNl fixedPackCode ++ mavlinkScan rest true (indentOf line)
    else if inPack then
      if mavTerm lvl line then line :: mavlinkScan rest false lvl
      else mavlinkScan rest true lvl
    else line :: mavlinkScan rest false lvl

/-- `patch_mavlink_header` on the content of an existing file: marker
check (line 76), pattern gate (line 109), line loop and rejoin
(lines 111-136), pattern-missing branch (lines 143-145).  The returned
text is the content the code writes back (unchanged when no write
happens). -/
def patch_mavlink_header (content : Str) : PatchOutcome × Str :=
  if occursIn mavlinkMarker content then (.alreadyApplied, content)
  else if occursIn originalPackPattern content then
    (.applied, joinNl (mavlinkScan (splitNl content) false 0))
  else (.patternNotFound, content)

/-! ### Literal strings of `patch_udp_binding` (lines 147-206) -/

/-- `"# PYHULA_UDP_PATCH_APPLIED"` (line 160). -/
def udpMarker : Str := strOf "# PYHULA_UDP_PATCH_APPLIED"

/-- First entry of `udp_bind_patterns` (line 166). -/
def udpPat1 : Str := strOf "self.sock.bind((\x27\x27, self.listen_port))"

/-- Second entry of `udp_bind_patterns` (line 167). -/
def udpPat2 : Str := strOf "self.sock.bind((\"\", self.listen_port))"

/-- Third entry of `udp_bind_patterns` (line 168). -/
def udpPat3 : Str := strOf "sock.bind((\x27\x27, port))"

/-- Fourth entry of `udp_bind_patterns` (line 169). -/
def udpPat4 : Str := strOf "sock.bind((\"\", port))"

/-- `udp_bind_patterns` (lines 165-170), in source order. -/
def udpPatterns : List Str := [udpPat1, udpPat2, udpPat3, udpPat4]

/-- `robust_bind` (lines 176-190): the f-string around the matched
pattern, `{{`/`}}` rendered as literal braces. -/
def robustBind (pattern : Str) : Str :=
  strOf "# PYHULA_UDP_PATCH_APPLIED: Robust UDP binding\n        try:\n            "
    ++ pattern
    ++ strOf "\n        except OSError as e:\n            if e.winerror == 10049:  # Address not valid\n                # Try binding to localhost instead\n                try:\n                    self.sock.bind((\x27127.0.0.1\x27, self.listen_port))\n                    print(f\"UDP bound to localhost:\x7bself.listen_port\x7d (fallback)\")\n                except:\n                    # Try any available port\n                    self.sock.bind((\x27127.0.0.1\x27, 0))\n                    print(f\"UDP bound to localhost:\x7bself.sock.getsockname()[1]\x7d (auto-assigned)\")\n            else:\n                raise e"

/-- `content.replace(pattern, robust_bind)`: replace every non-overlapping
occurrence, left to right.  Fuel is an upper bound on the remaining
length, so the definition is structurally recursive and kernel-evaluable. -/
def replaceAllGo (pat rep : Str) : Nat → Str → Str
  | 0, s => s
  | _ + 1, [] => []
  | n + 1, c :: cs =>
    if pat.isPrefixOf (c :: cs) then
      rep ++ replaceAllGo pat rep n (List.drop (pat.length - 1) cs)
    else c :: replaceAllGo pat rep n cs

/-- `content.replace(pattern, rep)`. -/
def replaceAll (pat rep : Str) (s : Str) : Str := replaceAllGo pat rep s.length s

/-- The first element of `udp_bind_patterns` contained in the content:
the `for pattern in udp_bind_patterns: if pattern in content: ... break`
loop (lines 173-194). -/
def udpFirstPattern (content : Str) : Option Str :=
  udpPatterns.find? (fun p => occursIn p content)

/-- `patch_udp_binding` on the content of an existing file. -/
def patch_udp_binding (content : Str) : PatchOutcome × Str :=
  if occursIn udpMarker content then (.alreadyApplied, content)
  else
    match udpFirstPattern content with
    | some p => (.applied, replaceAll p (robustBind p) content)
    | none => (.patternNotFound, content)

/-! ### Literal strings of `patch_userapi_connection` (lines 208-287) -/

/-- `"# PYHULA_USERAPI_PATCH_APPLIED"` (line 221). -/
def userapiMarker : Str := strOf "# PYHULA_USERAPI_PATCH_APPLIED"

/-- `connect_pattern` (line 226). -/
def connectPattern : Str := strOf "def connect(self, server_ip=\"192.168.100.1\"):"

/-- `robust_connect` (lines 230-249), byte-for-byte. -/
def robustConnect : Str :=
  strOf "def connect(self, server_ip=\"192.168.100.1\"):\n        \"\"\"\n        connect to the drone with robust error handling\n        \"\"\"\n        # PYHULA_USERAPI_PATCH_APPLIED\n        try:\n            print(f\"Connecting to drone at \x7bserver_ip\x7d...\")\n            result = self._control_server.connect(server_ip)\n            if result:\n                print(\"✓ Connection established\")\n            else:\n                print(\"✗ Connection failed - no response from drone\")\n            return result\n        except Exception as e:\n            print(f\"✗ Connection error: \x7be\x7d\")\n            print(\"Troubleshooting:\")\n            print(f\"1. Verify drone is at IP: \x7bserver_ip\x7d\")\n            print(\"2. Check WiFi connection to drone network\")\n            print(\"3. Ensure drone is powered and in AP mode\")\n            return False"

/-- Line 263: `' ' * indent_level + robust_line if robust_line.strip()
else ''`. -/
def indentLine (n : Nat) (l : Str) : Str :=
  if !(pstrip l).isEmpty then List.replicate n ' ' ++ l else []

/-- The userapi scan's block-terminator test (line 268):
`line.strip() and current_indent <= indent_level and
line.strip().startswith('def ')`. -/
def userTerm (lvl : Nat) (l : Str) : Bool :=
  !(pstrip l).isEmpty && decide (indentOf l ≤ lvl)
    && (strOf "def ").isPrefixOf (pstrip l)

/-- The line loop of `patch_userapi_connection` (lines 257-275). -/
def userapiScan : List Str → Bool → Nat → List Str
  | [], _, _ => []
  | line :: rest, inConn, lvl =>
    if occursIn connectPattern line then
      (splitNl robustConnect).map (indentLine (indentOf line))
        ++ userapiScan rest true (indentOf line)
    else if inConn then
      if userTerm lvl line then line :: userapiScan rest false lvl
      else userapiScan rest true lvl
    else line :: userapiScan rest false lvl

/-- `patch_userapi_connection` on the content of an existing file. -/
def patch_userapi_connection (content : Str) : PatchOutcome × Str :=
  if occursIn userapiMarker content then (.alreadyApplied, content)
  else if occursIn connectPattern content then
    (.applied, joinNl (userapiScan (splitNl content) false 0))
  else (.patternNotFound, content)

end Pyhula

namespace Pyhula

/-! ### Basic lemmas about the string embedding -/

theorem occursIn_iff (sub s : Str) : occursIn sub s = true ↔ sub <:+: s := by
  induction s with
  | nil =>
    simp only [occursIn, List.isEmpty_iff]
    constructor
    · intro h; simp [h]
    · intro h; simpa using h.eq_of_length_le (by simp)
  | cons c cs ih =>
    simp only [occursIn, Bool.or_eq_true, ih, List.infix_cons_iff,
      List.isPrefixOf_iff_prefix]

theorem joinNl_cons_cons (l l2 : Str) (ls : List Str) :
    joinNl (l :: l2 :: ls) = l ++ '\n' :: joinNl (l2 :: ls) := rfl

theorem infix_joinNl (sub l : Str) (L : List Str) (hl : l ∈ L) (h : sub <:+: l) :
    sub <:+: joinNl L := by
  induction L with
  | nil => cases hl
  | cons x xs ih =>
    cases xs with
    | nil =>
      rw [List.mem_singleton] at hl
      subst hl
      simpa [joinNl] using h
    | cons y ys =>
      rcases List.mem_cons.mp hl with h1 | h2
      · subst h1
        exact h.trans ⟨[], '\n' :: joinNl (y :: ys), rfl⟩
      · exact (ih h2).trans ⟨x ++ ['\n'], [], by simp [joinNl_cons_cons]⟩

theorem splitNl_ne_nil (c : Str) : splitNl c ≠ [] := by
  induction c with
  | nil => simp [splitNl]
  | cons x xs ih =>
    by_cases hx : x = '\n'
    · simp [splitNl, hx]
    · simp only [splitNl, if_neg hx]
      cases h : splitNl xs <;> simp

theorem splitNl_cons_nl (xs : Str) : splitNl ('\n' :: xs) = [] :: splitNl xs := by
  simp [splitNl]

theorem splitNl_cons_other (x : Char) (xs : Str) (hx : x ≠ '\n') (l : Str)
    (ls : List Str) (h : splitNl xs = l :: ls) :
    splitNl (x :: xs) = (x :: l) :: ls := by
  simp [splitNl, hx, h]

theorem joinNl_splitNl (c : Str) : joinNl (splitNl c) = c := by
  induction c with
  | nil => rfl
  | cons x xs ih =>
    by_cases hx : x = '\n'
    · subst hx
      rw [splitNl_cons_nl]
      cases h : splitNl xs with
      | nil => exact absurd h (splitNl_ne_nil xs)
      | cons l ls =>
        rw [h] at ih
        rw [joinNl_cons_cons]
        simpa using ih
    · cases h : splitNl xs with
      | nil => exact absurd h (splitNl_ne_nil xs)
      | cons l ls =>
        rw [splitNl_cons_other x xs hx l ls h]
        rw [h] at ih
        cases ls with
        | nil =>
          simp only [joinNl] at ih ⊢
          simp [ih]
        | cons l2 t =>
          rw [joinNl_cons_cons] at ih ⊢
          simp [ih]

theorem infix_of_mem_splitNl (l c : Str) (h : l ∈ splitNl c) : l <:+: c := by
  have h2 := infix_joinNl l l (splitNl c) h (List.infix_refl l)
  rwa [joinNl_splitNl] at h2

theorem pref_splitNl_head (sub : Str) (hnl : '\n' ∉ sub) :
    ∀ c : Str, sub <+: c → ∃ l ls, splitNl c = l :: ls ∧ sub <+: l := by
  induction sub with
  | nil =>
    intro c _
    obtain ⟨l, ls, h⟩ := List.exists_cons_of_ne_nil (splitNl_ne_nil c)
    exact ⟨l, ls, h, List.nil_prefix⟩
  | cons s st ih =>
    intro c hp
    cases c with
    | nil => simp at hp
    | cons x xs =>
      rw [List.cons_prefix_cons] at hp
      obtain ⟨rfl, hsub⟩ := hp
      have hs : s ≠ '\n' := fun e => hnl (by simp [e])
      have hnl' : '\n' ∉ st := fun e => hnl (by simp [e])
      obtain ⟨l, ls, hsplit, hpl⟩ := ih hnl' xs hsub
      exact ⟨s :: l, ls, splitNl_cons_other s xs hs l ls hsplit,
        List.cons_prefix_cons.mpr ⟨rfl, hpl⟩⟩

theorem exists_line_of_infix (sub : Str) (hnl : '\n' ∉ sub) :
    ∀ c : Str, sub <:+: c → ∃ l ∈ splitNl c, sub <:+: l := by
  induction sub with
  | nil =>
    intro c _
    obtain ⟨l, ls, h⟩ := List.exists_cons_of_ne_nil (splitNl_ne_nil c)
    exact ⟨l, by simp [h], List.nil_infix⟩
  | cons s st =>
    intro c h
    induction c with
    | nil => simpa using h.eq_of_length_le (by simp)
    | cons x xs ihc =>
      rcases List.infix_cons_iff.mp h with hp | hi
      · rw [List.cons_prefix_cons] at hp
        obtain ⟨rfl, hsub⟩ := hp
        have hs : s ≠ '\n' := fun e => hnl (by simp [e])
        have hnl' : '\n' ∉ st := fun e => hnl (by simp [e])
        obtain ⟨l, ls, hsplit, hpl⟩ := pref_splitNl_head st hnl' xs hsub
        refine ⟨s :: l, by simp [splitNl_cons_other s xs hs l ls hsplit], ?_⟩
        exact (List.cons_prefix_cons.mpr ⟨rfl, hpl⟩).isInfix
      · obtain ⟨l, hl, hsub⟩ := ihc hi
        by_cases hx : x = '\n'
        · subst hx
          exact ⟨l, by simp [splitNl_cons_nl, hl], hsub⟩
        · obtain ⟨l0, ls, hsplit⟩ :
              ∃ l0 ls, splitNl xs = l0 :: ls :=
            match h0 : splitNl xs with
            | [] => absurd h0 (splitNl_ne_nil xs)
            | l0 :: ls => ⟨l0, ls, rfl⟩
          rw [hsplit] at hl
          rcases List.mem_cons.mp hl with h1 | h2
          · subst h1
            exact ⟨x :: l, by simp [splitNl_cons_other x xs hx l ls hsplit],
              List.infix_cons hsub⟩
          · exact ⟨l, by simp [splitNl_cons_other x xs hx l0 ls hsplit, h2], hsub⟩

theorem occursIn_line (sub c : Str) (hnl : '\n' ∉ sub) (h : occursIn sub c = true) :
    ∃ l ∈ splitNl c, occursIn sub l = true := by
  obtain ⟨l, hl, hsub⟩ := exists_line_of_infix sub hnl c ((occursIn_iff sub c).mp h)
  exact ⟨l, hl, (occursIn_iff sub l).mpr hsub⟩

theorem countOcc_eq_zero (sub s : Str) (h : occursIn sub s = false) :
    countOcc sub s = 0 := by
  induction s with
  | nil =>
    simp only [occursIn] at h
    simp [countOcc, h]
  | cons c cs ih =>
    simp only [occursIn, Bool.or_eq_false_iff] at h
    simp [countOcc, h.1, ih h.2]

theorem occursIn_of_countOcc_one (sub s : Str) (h : countOcc sub s = 1) :
    occursIn sub s = true := by
  cases ho : occursIn sub s with
  | true => rfl
  | false => rw [countOcc_eq_zero sub s ho] at h; cases h

theorem isPrefixOf_append_nl (sub : Str) (hnl : '\n' ∉ sub) :
    ∀ a b : Str, sub.isPrefixOf (a ++ '\n' :: b) = sub.isPrefixOf a := by
  induction sub with
  | nil => intro a b; cases a <;> simp [List.isPrefixOf]
  | cons s st ih =>
    intro a b
    have hs : s ≠ '\n' := fun e => hnl (by simp [e])
    have hnl' : '\n' ∉ st := fun e => hnl (by simp [e])
    cases a with
    | nil =>
      simp only [List.nil_append, List.isPrefixOf]
      simp [beq_eq_false_iff_ne, hs]
    | cons y ys =>
      simp only [List.cons_append, List.isPrefixOf, List.append_eq, ih hnl' ys b]

theorem countOcc_append_nl (sub : Str) (hnl : '\n' ∉ sub) (hne : sub ≠ []) :
    ∀ a b : Str, countOcc sub (a ++ '\n' :: b) = countOcc sub a + countOcc sub b := by
  have hhead : ∀ b : Str, sub.isPrefixOf ('\n' :: b) = false := by
    intro b
    cases sub with
    | nil => exact absurd rfl hne
    | cons s st =>
      have hs : s ≠ '\n' := fun e => hnl (by simp [e])
      simp [List.isPrefixOf, beq_eq_false_iff_ne, hs]
  intro a b
  induction a with
  | nil =>
    have h0 : countOcc sub [] = 0 := by
      simp [countOcc, List.isEmpty_iff, hne]
    simp only [List.nil_append, countOcc, hhead b, h0]
    simp [hne]
  | cons x xs ih =>
    simp only [List.cons_append, countOcc, List.append_eq, ih]
    have hb : List.isPrefixOf sub (x :: (xs ++ '\n' :: b))
        = List.isPrefixOf sub (x :: xs) :=
      isPrefixOf_append_nl sub hnl (x :: xs) b
    simp only [hb]
    omega

theorem countOcc_joinNl (sub : Str) (hnl : '\n' ∉ sub) (hne : sub ≠ []) :
    ∀ L : List Str, countOcc sub (joinNl L) = (L.map (countOcc sub)).sum := by
  intro L
  induction L with
  | nil => simp [joinNl, countOcc, List.isEmpty_iff, hne]
  | cons l ls ih =>
    cases ls with
    | nil => simp [joinNl]
    | cons l2 t =>
      rw [joinNl_cons_cons, countOcc_append_nl sub hnl hne l (joinNl (l2 :: t)), ih]
      simp

end Pyhula

namespace Pyhula

/-! ### Lemmas about the mavlink line scan -/

/-- The line of `fixed_pack_code` that carries the mavlink marker. -/
def markerLineM : Str :=
  strOf "        # PYHULA_PATCH_APPLIED: Fix struct packing with proper integer conversion"

theorem mavScan_insert (line : Str) (rest : List Str) (b : Bool) (lvl : Nat)
    (h : occursIn packDefSig line = true) :
    mavlinkScan (line :: rest) b lvl
      = splitNl fixedPackCode ++ mavlinkScan rest true (indentOf line) := by
  simp [mavlinkScan, h]

theorem mavScan_term (lvl : Nat) (t : Str) (rest : List Str)
    (ht1 : occursIn packDefSig t = false) (ht2 : mavTerm lvl t = true) :
    mavlinkScan (t :: rest) true lvl = t :: mavlinkScan rest false lvl := by
  simp [mavlinkScan, ht1, ht2]

theorem mavScan_notTerm (lvl : Nat) (t : Str) (rest : List Str)
    (ht1 : occursIn packDefSig t = false) (ht2 : mavTerm lvl t = false) :
    mavlinkScan (t :: rest) true lvl = mavlinkScan rest true lvl := by
  simp [mavlinkScan, ht1, ht2]

theorem mavScan_plain (lvl : Nat) (t : Str) (rest : List Str)
    (ht1 : occursIn packDefSig t = false) :
    mavlinkScan (t :: rest) false lvl = t :: mavlinkScan rest false lvl := by
  simp [mavlinkScan, ht1]

theorem mavScan_copy (pre : List Str)
    (h : ∀ l ∈ pre, occursIn packDefSig l = false) :
    ∀ (ls : List Str) (lvl : Nat),
      mavlinkScan (pre ++ ls) false lvl = pre ++ mavlinkScan ls false lvl := by
  induction pre with
  | nil => intro ls lvl; rfl
  | cons p ps ih =>
    intro ls lvl
    rw [List.cons_append, mavScan_plain lvl p (ps ++ ls) (h p (by simp)),
      ih (fun l hl => h l (by simp [hl])) ls lvl, List.cons_append]

theorem mavScan_skip (lvl : Nat) (pre : List Str)
    (h : ∀ l ∈ pre, occursIn packDefSig l = false ∧ mavTerm lvl l = false) :
    ∀ ls : List Str, mavlinkScan (pre ++ ls) true lvl = mavlinkScan ls true lvl := by
  induction pre with
  | nil => intro ls; rfl
  | cons p ps ih =>
    intro ls
    rw [List.cons_append,
      mavScan_notTerm lvl p (ps ++ ls) (h p (by simp)).1 (h p (by simp)).2,
      ih (fun l hl => h l (by simp [hl])) ls]

theorem mavScan_marker_mem :
    ∀ (lines : List Str) (b : Bool) (lvl : Nat),
      (∃ l ∈ lines, occursIn packDefSig l = true) →
      ∃ l2 ∈ mavlinkScan lines b lvl, mavlinkMarker <:+: l2 := by
  intro lines
  induction lines with
  | nil => intro b lvl h; simp at h
  | cons x xs ih =>
    intro b lvl h
    cases hx : occursIn packDefSig x with
    | true =>
      rw [mavScan_insert x xs b lvl hx]
      refine ⟨markerLineM, List.mem_append_left _ (by decide), ?_⟩
      exact (occursIn_iff mavlinkMarker markerLineM).mp (by decide)
    | false =>
      have h2 : ∃ l ∈ xs, occursIn packDefSig l = true := by
        rcases h with ⟨l, hl, hocc⟩
        rcases List.mem_cons.mp hl with rfl | hmem
        · rw [hx] at hocc; cases hocc
        · exact ⟨l, hmem, hocc⟩
      cases b with
      | true =>
        cases hterm : mavTerm lvl x with
        | true =>
          rw [mavScan_term lvl x xs hx hterm]
          obtain ⟨l2, hm, hi⟩ := ih false lvl h2
          exact ⟨l2, by simp [hm], hi⟩
        | false =>
          rw [mavScan_notTerm lvl x xs hx hterm]
          exact ih true lvl h2
      | false =>
        rw [mavScan_plain lvl x xs hx]
        obtain ⟨l2, hm, hi⟩ := ih false lvl h2
        exact ⟨l2, by simp [hm], hi⟩

theorem mavScan_sublist (lines : List Str)
    (h : ∀ l ∈ lines, occursIn packDefSig l = false) :
    ∀ (b : Bool) (lvl : Nat), (mavlinkScan lines b lvl).Sublist lines := by
  induction lines with
  | nil => intro b lvl; simp [mavlinkScan]
  | cons x xs ih =>
    intro b lvl
    have hx := h x (by simp)
    have ih2 := ih (fun l hl => h l (by simp [hl]))
    cases b with
    | true =>
      cases hterm : mavTerm lvl x with
      | true =>
        rw [mavScan_term lvl x xs hx hterm]
        exact (ih2 false lvl).cons₂ x
      | false =>
        rw [mavScan_notTerm lvl x xs hx hterm]
        exact (ih2 true lvl).cons x
    | false =>
      rw [mavScan_plain lvl x xs hx]
      exact (ih2 false lvl).cons₂ x

/-! ### Lemmas about the userapi line scan -/

/-- The line of `robust_connect` that carries the userapi marker. -/
def markerLineU : Str := strOf "        # PYHULA_USERAPI_PATCH_APPLIED"

theorem userScan_insert (line : Str) (rest : List Str) (b : Bool) (lvl : Nat)
    (h : occursIn connectPattern line = true) :
    userapiScan (line :: rest) b lvl
      = (splitNl robustConnect).map (indentLine (indentOf line))
          ++ userapiScan rest true (indentOf line) := by
  simp [userapiScan, h]

theorem userScan_term (lvl : Nat) (t : Str) (rest : List Str)
    (ht1 : occursIn connectPattern t = false) (ht2 : userTerm lvl t = true) :
    userapiScan (t :: rest) true lvl = t :: userapiScan rest false lvl := by
  simp [userapiScan, ht1, ht2]

theorem userScan_notTerm (lvl : Nat) (t : Str) (rest : List Str)
    (ht1 : occursIn connectPattern t = false) (ht2 : userTerm lvl t = false) :
    userapiScan (t :: rest) true lvl = userapiScan rest true lvl := by
  simp [userapiScan, ht1, ht2]

theorem userScan_plain (lvl : Nat) (t : Str) (rest : List Str)
    (ht1 : occursIn connectPattern t = false) :
    userapiScan (t :: rest) false lvl = t :: userapiScan rest false lvl := by
  simp [userapiScan, ht1]

theorem userScan_copy (pre : List Str)
    (h : ∀ l ∈ pre, occursIn connectPattern l = false) :
    ∀ (ls : List Str) (lvl : Nat),
      userapiScan (pre ++ ls) false lvl = pre ++ userapiScan ls false lvl := by
  induction pre with
  | nil => intro ls lvl; rfl
  | cons p ps ih =>
    intro ls lvl
    rw [List.cons_append, userScan_plain lvl p (ps ++ ls) (h p (by simp)),
      ih (fun l hl => h l (by simp [hl])) ls lvl, List.cons_append]

theorem userScan_skip (lvl : Nat) (pre : List Str)
    (h : ∀ l ∈ pre, occursIn connectPattern l = false ∧ userTerm lvl l = false) :
    ∀ ls : List Str, userapiScan (pre ++ ls) true lvl = userapiScan ls true lvl := by
  induction pre with
  | nil => intro ls; rfl
  | cons p ps ih =>
    intro ls
    rw [List.cons_append,
      userScan_notTerm lvl p (ps ++ ls) (h p (by simp)).1 (h p (by simp)).2,
      ih (fun l hl => h l (by simp [hl])) ls]

theorem userScan_marker_mem :
    ∀ (lines : List Str) (b : Bool) (lvl : Nat),
      (∃ l ∈ lines, occursIn connectPattern l = true) →
      ∃ l2 ∈ userapiScan lines b lvl, userapiMarker <:+: l2 := by
  intro lines
  induction lines with
  | nil => intro b lvl h; simp at h
  | cons x xs ih =>
    intro b lvl h
    cases hx : occursIn connectPattern x with
    | true =>
      rw [userScan_insert x xs b lvl hx]
      refine ⟨indentLine (indentOf x) markerLineU,
        List.mem_append_left _ (List.mem_map_of_mem _ (by decide)), ?_⟩
      have h1 : userapiMarker <:+: markerLineU :=
        (occursIn_iff userapiMarker markerLineU).mp (by decide)
      have h2 : indentLine (indentOf x) markerLineU
          = List.replicate (indentOf x) ' ' ++ markerLineU := by
        rw [indentLine, if_pos (by decide)]
      rw [h2]
      exact h1.trans ⟨List.replicate (indentOf x) ' ', [], by simp⟩
    | false =>
      have h2 : ∃ l ∈ xs, occursIn connectPattern l = true := by
        rcases h with ⟨l, hl, hocc⟩
        rcases List.mem_cons.mp hl with rfl | hmem
        · rw [hx] at hocc; cases hocc
        · exact ⟨l, hmem, hocc⟩
      cases b with
      | true =>
        cases hterm : userTerm lvl x with
        | true =>
          rw [userScan_term lvl x xs hx hterm]
          obtain ⟨l2, hm, hi⟩ := ih false lvl h2
          exact ⟨l2, by simp [hm], hi⟩
        | false =>
          rw [userScan_notTerm lvl x xs hx hterm]
          exact ih true lvl h2
      | false =>
        rw [userScan_plain lvl x xs hx]
        obtain ⟨l2, hm, hi⟩ := ih false lvl h2
        exact ⟨l2, by simp [hm], hi⟩

end Pyhula

namespace Pyhula

/-! ### Lemmas about `str.replace` (the udp patch) -/

theorem replaceAllGo_nil (pat rep : Str) : ∀ n, replaceAllGo pat rep n [] = [] := by
  intro n; cases n <;> rfl

theorem replaceAllGo_fuel (pat rep : Str) :
    ∀ (n : Nat) (s : Str) (m : Nat), s.length ≤ n → s.length ≤ m →
      replaceAllGo pat rep n s = replaceAllGo pat rep m s := by
  intro n
  induction n with
  | zero =>
    intro s m h1 _
    have hs : s = [] := List.eq_nil_of_length_eq_zero (Nat.le_zero.mp h1)
    subst hs
    rw [replaceAllGo_nil, replaceAllGo_nil]
  | succ n ih =>
    intro s m h1 h2
    cases s with
    | nil => rw [replaceAllGo_nil, replaceAllGo_nil]
    | cons c cs =>
      cases m with
      | zero => simp at h2
      | succ m' =>
        have hn : cs.length ≤ n := by simpa using h1
        have hm : cs.length ≤ m' := by simpa using h2
        have hd : (List.drop (pat.length - 1) cs).length ≤ cs.length := by
          rw [List.length_drop]; omega
        simp only [replaceAllGo]
        cases hp : pat.isPrefixOf (c :: cs) with
        | true =>
          simp only [if_pos rfl]
          rw [ih (List.drop (pat.length - 1) cs) m' (le_trans hd hn) (le_trans hd hm)]
          simp
        | false =>
          simp only [Bool.false_eq_true, if_false]
          rw [ih cs m' hn hm]

theorem replaceAll_cons (pat rep : Str) (c : Char) (cs : Str) :
    replaceAll pat rep (c :: cs)
      = if pat.isPrefixOf (c :: cs) then
          rep ++ replaceAll pat rep (List.drop (pat.length - 1) cs)
        else c :: replaceAll pat rep cs := by
  show replaceAllGo pat rep (cs.length + 1) (c :: cs) = _
  simp only [replaceAllGo]
  cases hp : pat.isPrefixOf (c :: cs) with
  | true =>
    simp only [if_pos rfl]
    rw [replaceAllGo_fuel pat rep cs.length (List.drop (pat.length - 1) cs)
      (List.drop (pat.length - 1) cs).length (by rw [List.length_drop]; omega) le_rfl]
    rfl
  | false =>
    simp only [Bool.false_eq_true, if_false]
    rfl

theorem replaceAll_id (pat rep s : Str) (h : occursIn pat s = false) :
    replaceAll pat rep s = s := by
  induction s with
  | nil => rfl
  | cons c cs ih =>
    simp only [occursIn, Bool.or_eq_false_iff] at h
    rw [replaceAll_cons, if_neg (by simp [h.1]), ih h.2]

theorem rep_infix_replaceAll (pat rep s : Str) (hne : pat ≠ [])
    (h : occursIn pat s = true) : rep <:+: replaceAll pat rep s := by
  induction s with
  | nil =>
    simp only [occursIn, List.isEmpty_iff] at h
    exact absurd h hne
  | cons c cs ih =>
    rw [replaceAll_cons]
    cases hp : pat.isPrefixOf (c :: cs) with
    | true =>
      rw [if_pos rfl]
      exact ⟨[], replaceAll pat rep (List.drop (pat.length - 1) cs), by simp⟩
    | false =>
      simp only [occursIn, Bool.or_eq_true, hp, Bool.false_eq_true, false_or] at h
      rw [if_neg (by simp)]
      exact List.infix_cons (ih h)

/-- The greedy segment decomposition that `str.replace` induces: the
pieces of `s` between consecutive non-overlapping occurrences of `pat`,
left to right (verification artifact, not from the source). -/
def splitGo (pat : Str) : Nat → Str → List Str
  | 0, s => [s]
  | _ + 1, [] => [[]]
  | n + 1, c :: cs =>
    if pat.isPrefixOf (c :: cs) then
      [] :: splitGo pat n (List.drop (pat.length - 1) cs)
    else
      match splitGo pat n cs with
      | [] => [[c]]
      | l :: ls => (c :: l) :: ls

/-- Segments of `s` around the replaced occurrences of `pat`. -/
def splitOnPat (pat s : Str) : List Str := splitGo pat s.length s

/-- Join a list of segments, inserting `sep` between neighbours. -/
def interSep (sep : Str) : List Str → Str
  | [] => []
  | [l] => l
  | l :: l2 :: ls => l ++ sep ++ interSep sep (l2 :: ls)

theorem splitGo_nil (pat : Str) : ∀ n, splitGo pat n [] = [[]] := by
  intro n; cases n <;> rfl

theorem splitGo_ne_nil (pat : Str) : ∀ (n : Nat) (s : Str), splitGo pat n s ≠ [] := by
  intro n
  induction n with
  | zero => intro s; simp [splitGo]
  | succ n ih =>
    intro s
    cases s with
    | nil => simp [splitGo_nil]
    | cons c cs =>
      simp only [splitGo]
      cases hp : pat.isPrefixOf (c :: cs) with
      | true => simp
      | false =>
        simp only [Bool.false_eq_true, if_false]
        cases h : splitGo pat n cs <;> simp

theorem splitGo_fuel (pat : Str) :
    ∀ (n : Nat) (s : Str) (m : Nat), s.length ≤ n → s.length ≤ m →
      splitGo pat n s = splitGo pat m s := by
  intro n
  induction n with
  | zero =>
    intro s m h1 _
    have hs : s = [] := List.eq_nil_of_length_eq_zero (Nat.le_zero.mp h1)
    subst hs
    rw [splitGo_nil, splitGo_nil]
  | succ n ih =>
    intro s m h1 h2
    cases s with
    | nil => rw [splitGo_nil, splitGo_nil]
    | cons c cs =>
      cases m with
      | zero => simp at h2
      | succ m' =>
        have hn : cs.length ≤ n := by simpa using h1
        have hm : cs.length ≤ m' := by simpa using h2
        have hd : (List.drop (pat.length - 1) cs).length ≤ cs.length := by
          rw [List.length_drop]; omega
        simp only [splitGo]
        cases hp : pat.isPrefixOf (c :: cs) with
        | true =>
          simp only [if_pos rfl]
          rw [ih (List.drop (pat.length - 1) cs) m' (le_trans hd hn) (le_trans hd hm)]
          simp
        | false =>
          simp only [Bool.false_eq_true, if_false]
          rw [ih cs m' hn hm]

theorem splitOnPat_ne_nil (pat s : Str) : splitOnPat pat s ≠ [] :=
  splitGo_ne_nil pat s.length s

theorem splitOnPat_cons (pat : Str) (c : Char) (cs : Str) :
    splitOnPat pat (c :: cs)
      = if pat.isPrefixOf (c :: cs) then
          [] :: splitOnPat pat (List.drop (pat.length - 1) cs)
        else
          match splitOnPat pat cs with
          | [] => [[c]]
          | l :: ls => (c :: l) :: ls := by
  show splitGo pat (cs.length + 1) (c :: cs) = _
  simp only [splitGo]
  cases hp : pat.isPrefixOf (c :: cs) with
  | true =>
    simp only [if_pos rfl]
    rw [splitGo_fuel pat cs.length (List.drop (pat.length - 1) cs)
      (List.drop (pat.length - 1) cs).length (by rw [List.length_drop]; omega) le_rfl]
    rfl
  | false =>
    simp only [Bool.false_eq_true, if_false]
    rfl

/-- When `pat` starts the string, the string decomposes as
`pat ++ (the rest that the replacement recursion continues on)`. -/
theorem cons_eq_pat_append (pat : Str) (hne : pat ≠ []) (c : Char) (cs : Str)
    (hp : pat.isPrefixOf (c :: cs) = true) :
    c :: cs = pat ++ List.drop (pat.length - 1) cs := by
  obtain ⟨t, ht⟩ := List.isPrefixOf_iff_prefix.mp hp
  have hdrop : List.drop pat.length (c :: cs) = t := by
    rw [← ht, List.drop_left]
  obtain ⟨k, hk⟩ := Nat.exists_eq_succ_of_ne_zero
    (fun h0 => hne (List.eq_nil_of_length_eq_zero h0))
  have h2 : List.drop (pat.length - 1) cs = t := by
    rw [← hdrop, hk]
    simp
  rw [h2, ht]

theorem interSep_splitOnPat (pat : Str) (hne : pat ≠ []) :
    ∀ (n : Nat) (s : Str), s.length ≤ n → interSep pat (splitOnPat pat s) = s := by
  intro n
  induction n with
  | zero =>
    intro s h1
    have hs : s = [] := List.eq_nil_of_length_eq_zero (Nat.le_zero.mp h1)
    subst hs
    rfl
  | succ n ih =>
    intro s h1
    cases s with
    | nil => rfl
    | cons c cs =>
      rw [splitOnPat_cons]
      cases hp : pat.isPrefixOf (c :: cs) with
      | true =>
        rw [if_pos rfl]
        obtain ⟨l, ls, hsplit⟩ :
            ∃ l ls, splitOnPat pat (List.drop (pat.length - 1) cs) = l :: ls :=
          match h0 : splitOnPat pat (List.drop (pat.length - 1) cs) with
          | [] => absurd h0 (splitOnPat_ne_nil pat _)
          | l :: ls => ⟨l, ls, rfl⟩
        rw [hsplit]
        have hrest : interSep pat (l :: ls) = List.drop (pat.length - 1) cs := by
          rw [← hsplit]
          refine ih _ ?_
          have hn : cs.length ≤ n := by simpa using h1
          rw [List.length_drop]
          omega
        calc interSep pat ([] :: l :: ls) = [] ++ pat ++ interSep pat (l :: ls) := rfl
          _ = pat ++ List.drop (pat.length - 1) cs := by rw [hrest]; simp
          _ = c :: cs := (cons_eq_pat_append pat hne c cs hp).symm
      | false =>
        simp only [Bool.false_eq_true, if_false]
        obtain ⟨l, ls, hsplit⟩ :
            ∃ l ls, splitOnPat pat cs = l :: ls :=
          match h0 : splitOnPat pat cs with
          | [] => absurd h0 (splitOnPat_ne_nil pat _)
          | l :: ls => ⟨l, ls, rfl⟩
        rw [hsplit]
        have hrest : interSep pat (l :: ls) = cs := by
          rw [← hsplit]
          exact ih cs (by simpa using h1)
        cases ls with
        | nil =>
          simp only [interSep] at hrest ⊢
          rw [hrest]
        | cons l2 t =>
          calc interSep pat ((c :: l) :: l2 :: t)
              = (c :: l) ++ pat ++ interSep pat (l2 :: t) := rfl
            _ = c :: (l ++ pat ++ interSep pat (l2 :: t)) := by simp
            _ = c :: interSep pat (l :: l2 :: t) := rfl
            _ = c :: cs := by rw [hrest]

theorem replaceAll_interSep (pat rep : Str) (_hne : pat ≠ []) :
    ∀ (n : Nat) (s : Str), s.length ≤ n →
      replaceAll pat rep s = interSep rep (splitOnPat pat s) := by
  intro n
  induction n with
  | zero =>
    intro s h1
    have hs : s = [] := List.eq_nil_of_length_eq_zero (Nat.le_zero.mp h1)
    subst hs
    rfl
  | succ n ih =>
    intro s h1
    cases s with
    | nil => rfl
    | cons c cs =>
      rw [replaceAll_cons, splitOnPat_cons]
      cases hp : pat.isPrefixOf (c :: cs) with
      | true =>
        rw [if_pos rfl, if_pos rfl]
        obtain ⟨l, ls, hsplit⟩ :
            ∃ l ls, splitOnPat pat (List.drop (pat.length - 1) cs) = l :: ls :=
          match h0 : splitOnPat pat (List.drop (pat.length - 1) cs) with
          | [] => absurd h0 (splitOnPat_ne_nil pat _)
          | l :: ls => ⟨l, ls, rfl⟩
        rw [hsplit]
        have hrest : replaceAll pat rep (List.drop (pat.length - 1) cs)
            = interSep rep (l :: ls) := by
          rw [← hsplit]
          refine ih _ ?_
          have hn : cs.length ≤ n := by simpa using h1
          rw [List.length_drop]
          omega
        calc rep ++ replaceAll pat rep (List.drop (pat.length - 1) cs)
            = rep ++ interSep rep (l :: ls) := by rw [hrest]
          _ = [] ++ rep ++ interSep rep (l :: ls) := by simp
          _ = interSep rep ([] :: l :: ls) := rfl
      | false =>
        simp only [Bool.false_eq_true, if_false]
        obtain ⟨l, ls, hsplit⟩ :
            ∃ l ls, splitOnPat pat cs = l :: ls :=
          match h0 : splitOnPat pat cs with
          | [] => absurd h0 (splitOnPat_ne_nil pat _)
          | l :: ls => ⟨l, ls, rfl⟩
        rw [hsplit]
        have hrest : replaceAll pat rep cs = interSep rep (l :: ls) := by
          rw [← hsplit]
          exact ih cs (by simpa using h1)
        cases ls with
        | nil =>
          simp only [interSep] at hrest ⊢
          rw [hrest]
        | cons l2 t =>
          calc c :: replaceAll pat rep cs
              = c :: interSep rep (l :: l2 :: t) := by rw [hrest]
            _ = c :: (l ++ rep ++ interSep rep (l2 :: t)) := rfl
            _ = (c :: l) ++ rep ++ interSep rep (l2 :: t) := by simp
            _ = interSep rep ((c :: l) :: l2 :: t) := rfl

end Pyhula

namespace Pyhula

/-! ### File-level and orchestration model -/

/-- Return path of one `patch_*` call at the file level; `fileMissing`
is the `if not file.exists(): return False` path. -/
inductive ApplyResult
  | fileMissing
  | patternNotFound
  | alreadyApplied
  | applied
deriving DecidableEq, Repr

/-- The boolean each Python patch function returns: `True` on the applied
and already-applied paths, `False` on the missing-file and
pattern-not-found paths. -/
def ApplyResult.ok : ApplyResult → Bool
  | .applied => true
  | .alreadyApplied => true
  | _ => false

/-- Lift a content-level patch function to an optional file
(`none` = the target file does not exist). -/
def applyFile (p : Str → PatchOutcome × Str) :
    Option Str → ApplyResult × Option Str
  | none => (.fileMissing, none)
  | some c =>
    match p c with
    | (.alreadyApplied, c2) => (.alreadyApplied, some c2)
    | (.applied, c2) => (.applied, some c2)
    | (.patternNotFound, c2) => (.patternNotFound, some c2)

/-- The three target files of the patcher (`files_to_backup`, lines 47-51,
which are also the three patched files): `none` when missing. -/
structure FS where
  mavlink : Option Str
  taskcontroller : Option Str
  userapi : Option Str
deriving DecidableEq, Repr

/-- One file of `create_backup`'s loop (lines 53-59): an existing source
is copied over the backup entry, a missing source is skipped (the previous
backup entry, if any, stays). -/
def backupFile : Option Str → Option Str → Option Str
  | some c, _ => some c
  | none, prior => prior

/-- `create_backup` (lines 36-61) as its effect on the backup tree. -/
def create_backup (fs prior : FS) : FS :=
  { mavlink := backupFile fs.mavlink prior.mavlink
  , taskcontroller := backupFile fs.taskcontroller prior.taskcontroller
  , userapi := backupFile fs.userapi prior.userapi }

/-- Observable outcome of one `apply_all_patches` run. -/
structure RunResult where
  success : Bool
  results : Option (ApplyResult × ApplyResult × ApplyResult)
  fs : FS
  backup : FS
deriving DecidableEq, Repr

/-- `apply_all_patches` (lines 308-354): locate the installation
(modelled by the `installFound` flag; when false the run aborts before
the backup and the patch loop), create the backup, run the three patch
functions in the fixed order of lines 323-327 counting successes, and
return `success_count > 0` (line 354).  `verify_patches` only re-imports
the module and mutates none of the files, so it does not appear in the
state. -/
def apply_all_patches (installFound : Bool) (fs prior : FS) : RunResult :=
  if installFound then
    let bk := create_backup fs prior
    let r1 := applyFile patch_mavlink_header fs.mavlink
    let r2 := applyFile patch_udp_binding fs.taskcontroller
    let r3 := applyFile patch_userapi_connection fs.userapi
    let cnt := (if r1.1.ok then 1 else 0) + (if r2.1.ok then 1 else 0)
      + (if r3.1.ok then 1 else 0)
    { success := decide (0 < cnt)
    , results := some (r1.1, r2.1, r3.1)
    , fs := ⟨r1.2, r2.2, r3.2⟩
    , backup := bk }
  else
    { success := false, results := none, fs := fs, backup := prior }

/-! ### Restore model -/

/-- A path relative to the installation root. -/
abbrev FilePath' := List Char

/-- A directory tree as a finite list of (relative path, content) pairs. -/
abbrev FileTree := List (FilePath' × Str)

/-- Whether `rglob("*.py")` (line 365) yields the file: its name ends in
`.py`. -/
def isPyFile (p : FilePath') : Bool := (strOf ".py").isSuffixOf p

/-- Overwrite-or-create the file at `p` (the effect of
`target_file.parent.mkdir(parents=True, exist_ok=True)` followed by
`shutil.copy2(backup_file, target_file)`, lines 370-371). -/
def writeFile : FileTree → FilePath' → Str → FileTree
  | [], p, c => [(p, c)]
  | e :: es, p, c => if e.1 = p then (p, c) :: es else e :: writeFile es p c

/-- Content of the file at `p`, if present. -/
def getFile (live : FileTree) (p : FilePath') : Option Str :=
  (live.find? (fun e => decide (e.1 = p))).map (fun e => e.2)

/-- `restore_backup` (lines 356-375): returns `False` restoring nothing
when the stored backup-directory reference is unset (`self.backup_dir` is
`None`) or the backup directory does not exist (line 358); otherwise
copies every `*.py` file found under the backup tree over the live tree.
`backupSet` models whether `create_backup` ran on this instance in the
same process. -/
def restore_backup (backupSet backupExists : Bool) (tree live : FileTree) :
    Bool × FileTree :=
  if !backupSet || !backupExists then (false, live)
  else
    (true, (tree.filter (fun e => isPyFile e.1)).foldl
      (fun acc e => writeFile acc e.1 e.2) live)

/-- The `--restore` CLI mode (lines 389-391): a fresh `PyHulaPatcher` has
`backup_dir = None` (line 21), and `find_pyhula_installation` (the only
other call made in this mode) never sets it, so `restore_backup` always
runs with the reference unset. -/
def restoreMode (backupExists : Bool) (tree live : FileTree) : Bool × FileTree :=
  restore_backup false backupExists tree live

theorem getFile_writeFile_same (live : FileTree) (p : FilePath') (c : Str) :
    getFile (writeFile live p c) p = some c := by
  induction live with
  | nil => simp [writeFile, getFile, List.find?]
  | cons e es ih =>
    by_cases he : e.1 = p
    · simp [writeFile, he, getFile, List.find?]
    · simp only [writeFile, if_neg he]
      simp only [getFile, List.find?] at ih ⊢
      rw [show (decide (e.1 = p)) = false by simp [he]]
      exact ih

theorem getFile_writeFile_other (live : FileTree) (p q : FilePath') (c : Str)
    (h : q ≠ p) : getFile (writeFile live p c) q = getFile live q := by
  induction live with
  | nil =>
    simp only [writeFile, getFile, List.find?]
    rw [show (decide (p = q)) = false from decide_eq_false (fun hpq => h hpq.symm)]
  | cons e es ih =>
    by_cases he : e.1 = p
    · simp only [writeFile, if_pos he, getFile, List.find?]
      rw [show (decide (p = q)) = false from decide_eq_false (fun hpq => h hpq.symm)]
      rw [show (decide (e.1 = q)) = false from decide_eq_false
        (by intro hq; rw [he] at hq; exact h hq.symm)]
    · simp only [writeFile, if_neg he, getFile, List.find?]
      cases hq : decide (e.1 = q) with
      | true => rfl
      | false => exact ih

theorem getFile_foldl_not_mem (es : FileTree) (p : FilePath') :
    ∀ acc : FileTree, (∀ e ∈ es, e.1 ≠ p) →
      getFile (es.foldl (fun acc e => writeFile acc e.1 e.2) acc) p
        = getFile acc p := by
  induction es with
  | nil => intro acc _; rfl
  | cons e es ih =>
    intro acc h
    rw [List.foldl_cons, ih _ (fun x hx => h x (by simp [hx])),
      getFile_writeFile_other acc e.1 p e.2 (fun hq => h e (by simp) hq.symm)]

theorem getFile_foldl_mem (es : FileTree) (p : FilePath') (c : Str)
    (hmem : (p, c) ∈ es) (hnodup : es.Pairwise (fun a b => a.1 ≠ b.1)) :
    ∀ acc : FileTree,
      getFile (es.foldl (fun acc e => writeFile acc e.1 e.2) acc) p = some c := by
  induction es with
  | nil => cases hmem
  | cons e es ih =>
    intro acc
    rcases List.mem_cons.mp hmem with h1 | h2
    · subst h1
      rw [List.foldl_cons,
        getFile_foldl_not_mem es p _
          (fun x hx => Ne.symm ((List.pairwise_cons.mp hnodup).1 x hx))]
      exact getFile_writeFile_same acc p c
    · exact ih h2 (List.pairwise_cons.mp hnodup).2 _

end Pyhula

namespace Pyhula

/-! ### Claim theorems -/

/-- C5: for every existing target file whose content contains neither the
marker token nor the literal opening signature (for the udp patch: none
of the four bind-pattern variants), the apply operation returns the
PATTERN_NOT_FOUND outcome and leaves the file content unchanged. -/
theorem C5_pattern_miss_no_mutation (c : Str) :
    (occursIn mavlinkMarker c = false → occursIn originalPackPattern c = false →
      applyFile patch_mavlink_header (some c)
        = (ApplyResult.patternNotFound, some c)) ∧
    (occursIn udpMarker c = false → (∀ p ∈ udpPatterns, occursIn p c = false) →
      applyFile patch_udp_binding (some c)
        = (ApplyResult.patternNotFound, some c)) ∧
    (occursIn userapiMarker c = false → occursIn connectPattern c = false →
      applyFile patch_userapi_connection (some c)
        = (ApplyResult.patternNotFound, some c)) := by
  refine ⟨fun h1 h2 => ?_, fun h1 h2 => ?_, fun h1 h2 => ?_⟩
  · simp [applyFile, patch_mavlink_header, h1, h2]
  · have hf : udpFirstPattern c = none :=
      List.find?_eq_none.mpr (fun p hp => by simp [h2 p hp])
    simp [applyFile, patch_udp_binding, h1, hf]
  · simp [applyFile, patch_userapi_connection, h1, h2]

/-- Witness for C5 at a concrete file content matching none of the
patterns. -/
theorem C5_witness :
    applyFile patch_mavlink_header (some (strOf "print(1)"))
        = (ApplyResult.patternNotFound, some (strOf "print(1)")) ∧
    applyFile patch_udp_binding (some (strOf "print(1)"))
        = (ApplyResult.patternNotFound, some (strOf "print(1)")) ∧
    applyFile patch_userapi_connection (some (strOf "print(1)"))
        = (ApplyResult.patternNotFound, some (strOf "print(1)")) :=
  ⟨(C5_pattern_miss_no_mutation (strOf "print(1)")).1 (by decide) (by decide),
   (C5_pattern_miss_no_mutation (strOf "print(1)")).2.1 (by decide)
     (by decide),
   (C5_pattern_miss_no_mutation (strOf "print(1)")).2.2 (by decide) (by decide)⟩

/-- C6 counterexample: the restore walk is `rglob("*.py")`, so a non-py
file found under an existing backup root is not copied back, although the
claim says every found backup file is processed.  Here the backup tree
holds exactly one file `notes.txt` and restoring onto an empty live tree
restores nothing. -/
theorem C6_counterexample :
    isPyFile (strOf "notes.txt") = false ∧
    restore_backup true true [(strOf "notes.txt", strOf "data")] []
      = (true, []) := by decide

/-- C6 (amended): with the backup-directory reference set, restore fails
exactly when the backup root does not exist; with it unset nothing is
restored; and every `*.py` file found under the backup root is copied
back over the live tree (overwriting or creating the destination). -/
theorem C6_restore_walks_py_files (backupSet backupExists : Bool)
    (tree live : FileTree) :
    (backupSet = true →
      ((restore_backup backupSet backupExists tree live).1 = true
        ↔ backupExists = true)) ∧
    (backupSet = false →
      restore_backup backupSet backupExists tree live = (false, live)) ∧
    (∀ (p : FilePath') (c : Str), backupSet = true → backupExists = true →
      (p, c) ∈ tree → isPyFile p = true →
      tree.Pairwise (fun a b => a.1 ≠ b.1) →
      getFile (restore_backup backupSet backupExists tree live).2 p = some c) := by
  refine ⟨fun hset => ?_, fun hset => ?_, fun p c hset hex hmem hpy hnodup => ?_⟩
  · subst hset
    cases backupExists <;> simp [restore_backup]
  · subst hset
    simp [restore_backup]
  · subst hset; subst hex
    simp only [restore_backup, Bool.not_true, Bool.or_self, Bool.false_eq_true,
      if_false]
    exact getFile_foldl_mem (tree.filter (fun e => isPyFile e.1)) p c
      (List.mem_filter.mpr ⟨hmem, by simpa using hpy⟩)
      (List.Pairwise.sublist (List.filter_sublist tree) hnodup) live

/-- Witness for C6 at a concrete backup tree holding one `.py` file. -/
theorem C6_witness :
    getFile (restore_backup true true [(strOf "userapi.py", strOf "orig")]
      [(strOf "userapi.py", strOf "patched")]).2 (strOf "userapi.py")
        = some (strOf "orig") ∧
    ((restore_backup true true [(strOf "userapi.py", strOf "orig")]
      [(strOf "userapi.py", strOf "patched")]).1 = true ↔ true = true) :=
  ⟨(C6_restore_walks_py_files true true [(strOf "userapi.py", strOf "orig")]
      [(strOf "userapi.py", strOf "patched")]).2.2 (strOf "userapi.py")
      (strOf "orig") rfl rfl (by decide) (by decide) (by decide),
   (C6_restore_walks_py_files true true [(strOf "userapi.py", strOf "orig")]
      [(strOf "userapi.py", strOf "patched")]).1 rfl⟩

/-- C7: the three apply steps of an `apply_all_patches` run are
independent (each target's outcome and resulting file content equal the
stand-alone application to that target's file, whatever the other
outcomes are), and the run returns true exactly when the number of
targets whose apply call returned success is positive. -/
theorem C7_apply_steps_independent (fs prior : FS) :
    (apply_all_patches true fs prior).results
        = some ((applyFile patch_mavlink_header fs.mavlink).1,
                (applyFile patch_udp_binding fs.taskcontroller).1,
                (applyFile patch_userapi_connection fs.userapi).1) ∧
    (apply_all_patches true fs prior).fs
        = ⟨(applyFile patch_mavlink_header fs.mavlink).2,
           (applyFile patch_udp_binding fs.taskcontroller).2,
           (applyFile patch_userapi_connection fs.userapi).2⟩ ∧
    ((apply_all_patches true fs prior).success = true ↔
      0 < (if (applyFile patch_mavlink_header fs.mavlink).1.ok then 1 else 0)
        + (if (applyFile patch_udp_binding fs.taskcontroller).1.ok then 1 else 0)
        + (if (applyFile patch_userapi_connection fs.userapi).1.ok
            then 1 else 0)) := by
  refine ⟨rfl, rfl, ?_⟩
  simp [apply_all_patches]

/-- C8: a target file is only ever mutated after its pre-run content was
copied into the backup tree of the same run (the backup is taken from the
pre-patch state), and an aborted run (installation not found, the only
way the backup stage can fail) mutates nothing. -/
theorem C8_backup_before_mutation (found : Bool) (fs prior : FS) :
    (found = false → (apply_all_patches found fs prior).fs = fs) ∧
    ((apply_all_patches found fs prior).fs.mavlink ≠ fs.mavlink →
      (apply_all_patches found fs prior).backup.mavlink = fs.mavlink) ∧
    ((apply_all_patches found fs prior).fs.taskcontroller ≠ fs.taskcontroller →
      (apply_all_patches found fs prior).backup.taskcontroller
        = fs.taskcontroller) ∧
    ((apply_all_patches found fs prior).fs.userapi ≠ fs.userapi →
      (apply_all_patches found fs prior).backup.userapi = fs.userapi) := by
  cases found with
  | false =>
    exact ⟨fun _ => rfl,
      fun h => absurd rfl h,
      fun h => absurd rfl h,
      fun h => absurd rfl h⟩
  | true =>
    refine ⟨?_, ?_, ?_, ?_⟩
    · intro h; cases h
    · intro h
      cases hm : fs.mavlink with
      | none =>
        exact absurd (by simp [apply_all_patches, hm, applyFile]) h
      | some c =>
        simp [apply_all_patches, create_backup, hm, backupFile]
    · intro h
      cases hm : fs.taskcontroller with
      | none =>
        exact absurd (by simp [apply_all_patches, hm, applyFile]) h
      | some c =>
        simp [apply_all_patches, create_backup, hm, backupFile]
    · intro h
      cases hm : fs.userapi with
      | none =>
        exact absurd (by simp [apply_all_patches, hm, applyFile]) h
      | some c =>
        simp [apply_all_patches, create_backup, hm, backupFile]

/-- A minimal file content matched by the mavlink patch. -/
def fixMav : Str :=
  strOf "    def pack(self, force_mavlink1=False):\n        \"\"\"\n        pack the MAVLink header into a byte string\n        \"\"\"\n        pass"

/-- A minimal file content matched by the udp patch. -/
def fixUdp : Str := strOf "sock.bind((\x27\x27, port))"

/-- A minimal file content matched by the userapi patch. -/
def fixConn : Str :=
  strOf "    def connect(self, server_ip=\"192.168.100.1\"):\n        pass"

/-- Target files of a run in which every target mutates: each patch
fixture matches its pattern. -/
def fsC8 : FS :=
  { mavlink := some fixMav
  , taskcontroller := some fixUdp
  , userapi := some fixConn }

/-- Witness for C8: a run on concrete mutating contents backs up each
pre-run content, and an aborted run leaves the files untouched. -/
theorem C8_witness :
    (apply_all_patches false fsC8 ⟨none, none, none⟩).fs = fsC8 ∧
    (apply_all_patches true fsC8 ⟨none, none, none⟩).backup.mavlink
      = fsC8.mavlink ∧
    (apply_all_patches true fsC8 ⟨none, none, none⟩).backup.taskcontroller
      = fsC8.taskcontroller ∧
    (apply_all_patches true fsC8 ⟨none, none, none⟩).backup.userapi
      = fsC8.userapi :=
  ⟨(C8_backup_before_mutation false fsC8 ⟨none, none, none⟩).1 rfl,
   (C8_backup_before_mutation true fsC8 ⟨none, none, none⟩).2.1 (by decide),
   (C8_backup_before_mutation true fsC8 ⟨none, none, none⟩).2.2.1 (by decide),
   (C8_backup_before_mutation true fsC8 ⟨none, none, none⟩).2.2.2 (by decide)⟩

/-- C9: the `--restore` CLI mode constructs a fresh patcher whose
backup-directory reference is never set before `restore_backup` runs, so
restore in that mode always reports failure and restores no file, whatever
backup tree exists on disk. -/
theorem C9_restore_mode_always_fails (backupExists : Bool)
    (tree live : FileTree) :
    restoreMode backupExists tree live = (false, live) := rfl

/-- C1 counterexample: the claim's terminator rule (non-blank, indent ≤
reference depth, not a docstring line) is not the one the userapi scan
uses.  `x = 1` is non-blank, at indent 0 ≤ 4 and no docstring line, so by
the claim it terminates the block (and is emitted); the userapi scan
consumes it and everything after it.  Moreover, in the mavlink scan a
line at indent 6 > 4 — by the claim always consumed at reference depth
4 — survives into the output when a block line contains the opening
signature again, because that occurrence resets the reference depth. -/
theorem C1_counterexample :
    ((pstrip (strOf "x = 1")).isEmpty = false ∧
      indentOf (strOf "x = 1") ≤ 4 ∧
      (strOf "\"\"\"").isPrefixOf (pstrip (strOf "x = 1")) = false) ∧
    userapiScan [strOf "x = 1", strOf "z = 2"] true 4 = [] ∧
    ((pstrip (strOf "      x")).isEmpty = false ∧
      4 < indentOf (strOf "      x")) ∧
    (strOf "      x") ∈ mavlinkScan
      [strOf "        y = 0 # def pack(self, force_mavlink1=False): note",
       strOf "      x"] true 4 := by decide

/-- C1 (amended): while in a block and as long as no line contains the
opening signature again, the mavlink scan consumes every line until the
first non-blank line of indent ≤ reference depth whose stripped text does
not start with a docstring quote (so a docstring line at or below the
reference depth never terminates), emits that line and leaves the block;
the userapi scan instead consumes every line until the first non-blank
line of indent ≤ reference depth whose stripped text starts with
`def `; in both scans a block with no such terminator extends to the end
of the file (everything is consumed). -/
theorem C1_block_termination (lvl : Nat) :
    (∀ lines : List Str,
        (∀ l ∈ lines, occursIn packDefSig l = false ∧ mavTerm lvl l = false) →
        mavlinkScan lines true lvl = []) ∧
    (∀ (consumed : List Str) (t : Str) (rest : List Str),
        (∀ l ∈ consumed, occursIn packDefSig l = false ∧ mavTerm lvl l = false) →
        occursIn packDefSig t = false → mavTerm lvl t = true →
        mavlinkScan (consumed ++ t :: rest) true lvl
          = t :: mavlinkScan rest false lvl) ∧
    (∀ lines : List Str,
        (∀ l ∈ lines, occursIn connectPattern l = false ∧ userTerm lvl l = false) →
        userapiScan lines true lvl = []) ∧
    (∀ (consumed : List Str) (t : Str) (rest : List Str),
        (∀ l ∈ consumed, occursIn connectPattern l = false ∧ userTerm lvl l = false) →
        occursIn connectPattern t = false → userTerm lvl t = true →
        userapiScan (consumed ++ t :: rest) true lvl
          = t :: userapiScan rest false lvl) := by
  refine ⟨fun lines h => ?_, fun consumed t rest h ht1 ht2 => ?_,
    fun lines h => ?_, fun consumed t rest h ht1 ht2 => ?_⟩
  · simpa using mavScan_skip lvl lines h []
  · rw [mavScan_skip lvl consumed h (t :: rest), mavScan_term lvl t rest ht1 ht2]
  · simpa using userScan_skip lvl lines h []
  · rw [userScan_skip lvl consumed h (t :: rest), userScan_term lvl t rest ht1 ht2]

/-- Witness for C1 at concrete line lists: a docstring line at the
reference depth does not terminate the mavlink block, `x = 1` does not
terminate the userapi block, and the respective real terminators do. -/
theorem C1_witness :
    mavlinkScan [strOf "        body", strOf "    \"\"\""] true 4 = [] ∧
    mavlinkScan [strOf "        body", strOf "    def nxt(self):",
        strOf "        pass"] true 4
      = strOf "    def nxt(self):"
          :: mavlinkScan [strOf "        pass"] false 4 ∧
    userapiScan [strOf "        body", strOf "x = 1"] true 4 = [] ∧
    userapiScan [strOf "        body", strOf "x = 1", strOf "def g():",
        strOf "    pass"] true 4
      = strOf "def g():" :: userapiScan [strOf "    pass"] false 4 :=
  ⟨(C1_block_termination 4).1 _ (by decide),
   (C1_block_termination 4).2.1 [strOf "        body"] _ _ (by decide)
     (by decide) (by decide),
   (C1_block_termination 4).2.2.1 _ (by decide),
   (C1_block_termination 4).2.2.2 [strOf "        body", strOf "x = 1"] _ _
     (by decide) (by decide) (by decide)⟩

/-- C4: when a depth-4 method (opening line containing the pack
signature) is followed, after its deeper-or-blank body lines, by a
sibling `def` header at depth 4, the mavlink scan replaces exactly the
method's lines with the fixed block and keeps the sibling header and
every following line unchanged. -/
theorem C4_sibling_boundary (pre body rest : List Str) (sig sib : Str)
    (hpre : ∀ l ∈ pre, occursIn packDefSig l = false)
    (hsig : occursIn packDefSig sig = true)
    (hsiglvl : indentOf sig = 4)
    (hbody : ∀ l ∈ body, occursIn packDefSig l = false ∧
      ((pstrip l).isEmpty = true ∨ 4 < indentOf l))
    (hsib1 : occursIn packDefSig sib = false)
    (hsib2 : (pstrip sib).isEmpty = false)
    (hsib3 : indentOf sib = 4)
    (hsib4 : (strOf "def ").isPrefixOf (pstrip sib) = true)
    (hrest : ∀ l ∈ rest, occursIn packDefSig l = false) :
    mavlinkScan (pre ++ sig :: (body ++ sib :: rest)) false 0
      = pre ++ splitNl fixedPackCode ++ sib :: rest := by
  have hterm : ∀ l ∈ body, occursIn packDefSig l = false ∧ mavTerm 4 l = false := by
    intro l hl
    refine ⟨(hbody l hl).1, ?_⟩
    rcases (hbody l hl).2 with h | h
    · simp [mavTerm, h]
    · have hd : decide (indentOf l ≤ 4) = false := decide_eq_false (by omega)
      simp [mavTerm, hd]
  have hsibterm : mavTerm 4 sib = true := by
    have hdoc : (strOf "\"\"\"").isPrefixOf (pstrip sib) = false := by
      cases hp : pstrip sib with
      | nil => rw [hp] at hsib4; cases hsib4
      | cons c cs =>
        rw [hp] at hsib4
        have hc : c = 'd' := by
          have := hsib4
          simp only [strOf, List.isPrefixOf, Bool.and_eq_true, beq_iff_eq] at this
          exact this.1.symm
        subst hc
        simp [strOf, List.isPrefixOf]
    simp [mavTerm, hsib2, hsib3, hdoc]
  rw [mavScan_copy pre hpre (sig :: (body ++ sib :: rest)) 0,
    mavScan_insert sig (body ++ sib :: rest) false 0 hsig, hsiglvl,
    mavScan_skip 4 body hterm (sib :: rest),
    mavScan_term 4 sib rest hsib1 hsibterm]
  have hrest2 : mavlinkScan rest false 4 = rest := by
    have h0 : mavlinkScan ([] : List Str) false 4 = [] := rfl
    simpa [h0] using mavScan_copy rest hrest [] 4
  rw [hrest2, List.append_assoc]

/-- Witness for C4 at a concrete file: a 4-line `pack` body followed by a
sibling `def other` at depth 4. -/
theorem C4_witness :
    mavlinkScan
        ([strOf "class H:"] ++ strOf "    def pack(self, force_mavlink1=False):"
          :: ([strOf "        \"\"\"", strOf "        doc",
               strOf "        \"\"\"", strOf "        return 1"]
            ++ strOf "    def other(self):" :: [strOf "        pass"])) false 0
      = [strOf "class H:"] ++ splitNl fixedPackCode
          ++ strOf "    def other(self):" :: [strOf "        pass"] :=
  C4_sibling_boundary [strOf "class H:"]
    [strOf "        \"\"\"", strOf "        doc", strOf "        \"\"\"",
      strOf "        return 1"]
    [strOf "        pass"]
    (strOf "    def pack(self, force_mavlink1=False):")
    (strOf "    def other(self):")
    (by decide) (by decide) (by decide) (by decide) (by decide) (by decide)
    (by decide) (by decide) (by decide)

/-- Helper: an applied mavlink run means the marker was absent, the
pattern present, and the output is the rejoined scan. -/
theorem mavlink_applied_chr (c : Str)
    (h : (patch_mavlink_header c).1 = PatchOutcome.applied) :
    occursIn mavlinkMarker c = false ∧ occursIn originalPackPattern c = true ∧
    (patch_mavlink_header c).2 = joinNl (mavlinkScan (splitNl c) false 0) := by
  by_cases h1 : occursIn mavlinkMarker c = true
  · simp [patch_mavlink_header, h1] at h
  · have h1' : occursIn mavlinkMarker c = false := by simpa using h1
    by_cases h2 : occursIn originalPackPattern c = true
    · exact ⟨h1', h2, by simp [patch_mavlink_header, h1', h2]⟩
    · have h2' : occursIn originalPackPattern c = false := by simpa using h2
      simp [patch_mavlink_header, h1', h2'] at h

/-- Helper: an applied userapi run means the marker was absent, the
pattern present, and the output is the rejoined scan. -/
theorem userapi_applied_chr (c : Str)
    (h : (patch_userapi_connection c).1 = PatchOutcome.applied) :
    occursIn userapiMarker c = false ∧ occursIn connectPattern c = true ∧
    (patch_userapi_connection c).2 = joinNl (userapiScan (splitNl c) false 0) := by
  by_cases h1 : occursIn userapiMarker c = true
  · simp [patch_userapi_connection, h1] at h
  · have h1' : occursIn userapiMarker c = false := by simpa using h1
    by_cases h2 : occursIn connectPattern c = true
    · exact ⟨h1', h2, by simp [patch_userapi_connection, h1', h2]⟩
    · have h2' : occursIn connectPattern c = false := by simpa using h2
      simp [patch_userapi_connection, h1', h2'] at h

/-- Helper: an applied udp run means the marker was absent and some first
pattern matched. -/
theorem udp_applied_chr (c : Str)
    (h : (patch_udp_binding c).1 = PatchOutcome.applied) :
    occursIn udpMarker c = false ∧
    ∃ p, udpFirstPattern c = some p ∧
      (patch_udp_binding c).2 = replaceAll p (robustBind p) c := by
  by_cases h1 : occursIn udpMarker c = true
  · simp [patch_udp_binding, h1] at h
  · have h1' : occursIn udpMarker c = false := by simpa using h1
    cases hf : udpFirstPattern c with
    | none => simp [patch_udp_binding, h1', hf] at h
    | some p => exact ⟨h1', p, rfl, by simp [patch_udp_binding, h1', hf]⟩

/-- Helper: a successful mavlink rewrite embeds the marker. -/
theorem mavlink_marker_in_out (c : Str)
    (_h1 : occursIn mavlinkMarker c = false)
    (h2 : occursIn originalPackPattern c = true) :
    occursIn mavlinkMarker (joinNl (mavlinkScan (splitNl c) false 0)) = true := by
  have hinf : originalPackPattern <:+: c := (occursIn_iff _ _).mp h2
  have hpref : strOf "    def pack(self, force_mavlink1=False):"
      <+: originalPackPattern := by decide
  have hhead : strOf "    def pack(self, force_mavlink1=False):" <:+: c :=
    hpref.isInfix.trans hinf
  have hnl : '\n' ∉ strOf "    def pack(self, force_mavlink1=False):" := by decide
  obtain ⟨l, hl, hli⟩ := exists_line_of_infix _ hnl c hhead
  have hsig : occursIn packDefSig l = true := by
    refine (occursIn_iff _ _).mpr (List.IsInfix.trans ?_ hli)
    exact (occursIn_iff _ _).mp (by decide)
  obtain ⟨l2, hl2, hm⟩ := mavScan_marker_mem (splitNl c) false 0 ⟨l, hl, hsig⟩
  exact (occursIn_iff _ _).mpr (infix_joinNl _ l2 _ hl2 hm)

/-- Helper: a successful userapi rewrite embeds the marker. -/
theorem userapi_marker_in_out (c : Str)
    (_h1 : occursIn userapiMarker c = false)
    (h2 : occursIn connectPattern c = true) :
    occursIn userapiMarker (joinNl (userapiScan (splitNl c) false 0)) = true := by
  have hinf : connectPattern <:+: c := (occursIn_iff _ _).mp h2
  have hnl : '\n' ∉ connectPattern := by decide
  obtain ⟨l, hl, hli⟩ := exists_line_of_infix _ hnl c hinf
  have hsig : occursIn connectPattern l = true := (occursIn_iff _ _).mpr hli
  obtain ⟨l2, hl2, hm⟩ := userScan_marker_mem (splitNl c) false 0 ⟨l, hl, hsig⟩
  exact (occursIn_iff _ _).mpr (infix_joinNl _ l2 _ hl2 hm)

/-- Helper: a successful udp rewrite embeds the marker. -/
theorem udp_marker_in_out (c p : Str) (hf : udpFirstPattern c = some p) :
    occursIn udpMarker (replaceAll p (robustBind p) c) = true := by
  have hmem : p ∈ udpPatterns := List.mem_of_find?_eq_some hf
  have hocc : occursIn p c = true := by
    have h := List.find?_some hf
    simpa using h
  have hne : p ≠ [] := by
    simp only [udpPatterns, List.mem_cons, List.not_mem_nil, or_false] at hmem
    rcases hmem with rfl | rfl | rfl | rfl <;> decide
  have hrep : robustBind p <:+: replaceAll p (robustBind p) c :=
    rep_infix_replaceAll p (robustBind p) c hne hocc
  have hmark : udpMarker <:+: robustBind p := by
    have hp1 : udpMarker
        <+: strOf "# PYHULA_UDP_PATCH_APPLIED: Robust UDP binding\n        try:\n            " := by
      decide
    have hp2 := hp1.trans (List.prefix_append _ p)
    exact (hp2.trans (List.prefix_append _ _)).isInfix
  exact (occursIn_iff _ _).mpr (hmark.trans hrep)

/-- Helper: the marker check short-circuits the mavlink patch. -/
theorem mavlink_already (x : Str) (h : occursIn mavlinkMarker x = true) :
    patch_mavlink_header x = (PatchOutcome.alreadyApplied, x) := by
  simp [patch_mavlink_header, h]

/-- Helper: the marker check short-circuits the udp patch. -/
theorem udp_already (x : Str) (h : occursIn udpMarker x = true) :
    patch_udp_binding x = (PatchOutcome.alreadyApplied, x) := by
  simp [patch_udp_binding, h]

/-- Helper: the marker check short-circuits the userapi patch. -/
theorem userapi_already (x : Str) (h : occursIn userapiMarker x = true) :
    patch_userapi_connection x = (PatchOutcome.alreadyApplied, x) := by
  simp [patch_userapi_connection, h]

/-- C2: for each of the three targets, a successful apply embeds the
target's marker token in the rewritten text, and applying the same patch
to the rewritten text returns the already-applied success outcome with
the text byte-for-byte unchanged (hence the whole patch pass is a no-op
for that file from then on). -/
theorem C2_idempotent_apply (c : Str) :
    ((patch_mavlink_header c).1 = PatchOutcome.applied →
      occursIn mavlinkMarker (patch_mavlink_header c).2 = true ∧
      patch_mavlink_header (patch_mavlink_header c).2
        = (PatchOutcome.alreadyApplied, (patch_mavlink_header c).2)) ∧
    ((patch_udp_binding c).1 = PatchOutcome.applied →
      occursIn udpMarker (patch_udp_binding c).2 = true ∧
      patch_udp_binding (patch_udp_binding c).2
        = (PatchOutcome.alreadyApplied, (patch_udp_binding c).2)) ∧
    ((patch_userapi_connection c).1 = PatchOutcome.applied →
      occursIn userapiMarker (patch_userapi_connection c).2 = true ∧
      patch_userapi_connection (patch_userapi_connection c).2
        = (PatchOutcome.alreadyApplied, (patch_userapi_connection c).2)) := by
  refine ⟨fun h => ?_, fun h => ?_, fun h => ?_⟩
  · obtain ⟨h1, h2, hout⟩ := mavlink_applied_chr c h
    have hm : occursIn mavlinkMarker (patch_mavlink_header c).2 = true := by
      rw [hout]; exact mavlink_marker_in_out c h1 h2
    exact ⟨hm, mavlink_already _ hm⟩
  · obtain ⟨h1, p, hf, hout⟩ := udp_applied_chr c h
    have hm : occursIn udpMarker (patch_udp_binding c).2 = true := by
      rw [hout]; exact udp_marker_in_out c p hf
    exact ⟨hm, udp_already _ hm⟩
  · obtain ⟨h1, h2, hout⟩ := userapi_applied_chr c h
    have hm : occursIn userapiMarker (patch_userapi_connection c).2 = true := by
      rw [hout]; exact userapi_marker_in_out c h1 h2
    exact ⟨hm, userapi_already _ hm⟩

/-- Witness for C2 at concrete matching contents for all three targets. -/
theorem C2_witness :
    (occursIn mavlinkMarker (patch_mavlink_header fixMav).2 = true ∧
      patch_mavlink_header (patch_mavlink_header fixMav).2
        = (PatchOutcome.alreadyApplied, (patch_mavlink_header fixMav).2)) ∧
    (occursIn udpMarker (patch_udp_binding fixUdp).2 = true ∧
      patch_udp_binding (patch_udp_binding fixUdp).2
        = (PatchOutcome.alreadyApplied, (patch_udp_binding fixUdp).2)) ∧
    (occursIn userapiMarker (patch_userapi_connection fixConn).2 = true ∧
      patch_userapi_connection (patch_userapi_connection fixConn).2
        = (PatchOutcome.alreadyApplied, (patch_userapi_connection fixConn).2)) :=
  ⟨(C2_idempotent_apply fixMav).1 (by decide),
   (C2_idempotent_apply fixUdp).2.1 (by decide),
   (C2_idempotent_apply fixConn).2.2 (by decide)⟩

/-- C10: the udp patch tries its four literal bind patterns in source
order and uses exactly the first one contained in the content (later
variants are never substituted even if present; with none present the
result is PATTERN_NOT_FOUND); the rewrite replaces every non-overlapping
occurrence of that variant — the content is the interleaving of its
greedy segments with the pattern, and the output the interleaving of the
same segments with the retry block — and each inserted retry block
carries the udp marker token exactly once. -/
theorem C10_udp_first_variant (c : Str) (h0 : occursIn udpMarker c = false) :
    (occursIn udpPat1 c = true →
      patch_udp_binding c
        = (PatchOutcome.applied, replaceAll udpPat1 (robustBind udpPat1) c)) ∧
    (occursIn udpPat1 c = false → occursIn udpPat2 c = true →
      patch_udp_binding c
        = (PatchOutcome.applied, replaceAll udpPat2 (robustBind udpPat2) c)) ∧
    (occursIn udpPat1 c = false → occursIn udpPat2 c = false →
      occursIn udpPat3 c = true →
      patch_udp_binding c
        = (PatchOutcome.applied, replaceAll udpPat3 (robustBind udpPat3) c)) ∧
    (occursIn udpPat1 c = false → occursIn udpPat2 c = false →
      occursIn udpPat3 c = false → occursIn udpPat4 c = true →
      patch_udp_binding c
        = (PatchOutcome.applied, replaceAll udpPat4 (robustBind udpPat4) c)) ∧
    (occursIn udpPat1 c = false → occursIn udpPat2 c = false →
      occursIn udpPat3 c = false → occursIn udpPat4 c = false →
      patch_udp_binding c = (PatchOutcome.patternNotFound, c)) ∧
    (∀ p, udpFirstPattern c = some p →
      interSep p (splitOnPat p c) = c ∧
      replaceAll p (robustBind p) c = interSep (robustBind p) (splitOnPat p c) ∧
      countOcc udpMarker (robustBind p) = 1) := by
  refine ⟨fun o1 => ?_, fun o1 o2 => ?_, fun o1 o2 o3 => ?_,
    fun o1 o2 o3 o4 => ?_, fun o1 o2 o3 o4 => ?_, fun p hf => ?_⟩
  · have hf : udpFirstPattern c = some udpPat1 := by
      simp [udpFirstPattern, udpPatterns, List.find?, o1]
    simp [patch_udp_binding, h0, hf]
  · have hf : udpFirstPattern c = some udpPat2 := by
      simp [udpFirstPattern, udpPatterns, List.find?, o1, o2]
    simp [patch_udp_binding, h0, hf]
  · have hf : udpFirstPattern c = some udpPat3 := by
      simp [udpFirstPattern, udpPatterns, List.find?, o1, o2, o3]
    simp [patch_udp_binding, h0, hf]
  · have hf : udpFirstPattern c = some udpPat4 := by
      simp [udpFirstPattern, udpPatterns, List.find?, o1, o2, o3, o4]
    simp [patch_udp_binding, h0, hf]
  · have hf : udpFirstPattern c = none := by
      simp [udpFirstPattern, udpPatterns, List.find?, o1, o2, o3, o4]
    simp [patch_udp_binding, h0, hf]
  · have hmem : p ∈ udpPatterns := List.mem_of_find?_eq_some hf
    simp only [udpPatterns, List.mem_cons, List.not_mem_nil, or_false] at hmem
    have hne : p ≠ [] := by
      rcases hmem with rfl | rfl | rfl | rfl <;> decide
    refine ⟨interSep_splitOnPat p hne c.length c le_rfl,
      replaceAll_interSep p (robustBind p) hne c.length c le_rfl, ?_⟩
    rcases hmem with rfl | rfl | rfl | rfl <;> decide

/-- File content containing the second and third udp bind variants but
not the first. -/
def fixC10 : Str :=
  strOf "a\nself.sock.bind((\"\", self.listen_port))\nb\nsock.bind((\x27\x27, port))"

/-- Witness for C10: on a content containing the second and third
variants, the second (earlier) one is the one substituted. -/
theorem C10_witness :
    patch_udp_binding fixC10
      = (PatchOutcome.applied, replaceAll udpPat2 (robustBind udpPat2) fixC10) ∧
    interSep udpPat2 (splitOnPat udpPat2 fixC10) = fixC10 ∧
    replaceAll udpPat2 (robustBind udpPat2) fixC10
      = interSep (robustBind udpPat2) (splitOnPat udpPat2 fixC10) ∧
    countOcc udpMarker (robustBind udpPat2) = 1 :=
  ⟨(C10_udp_first_variant fixC10 (by decide)).2.1 (by decide) (by decide),
   ((C10_udp_first_variant fixC10 (by decide)).2.2.2.2.2 udpPat2 (by decide)).1,
   ((C10_udp_first_variant fixC10 (by decide)).2.2.2.2.2 udpPat2 (by decide)).2.1,
   ((C10_udp_first_variant fixC10 (by decide)).2.2.2.2.2 udpPat2 (by decide)).2.2⟩

/-- Fixture for C3: a file holding a 6-line `pack` method at depth 4
(signature, three docstring lines, two body lines) followed by a sibling
method. -/
def fixC3 : Str :=
  strOf "class H:\n    def pack(self, force_mavlink1=False):\n        \"\"\"\n        pack the MAVLink header into a byte string\n        \"\"\"\n        x = 1\n        return 0\n    def other(self):\n        pass"

/-- C3 counterexample: the replacement block begins with the very same
signature and docstring lines as the original method, so after a
successful apply the rewritten text still contains original method lines
— the claim that it contains none of the original 6 method lines fails
already for the method's opening line. -/
theorem C3_counterexample :
    (patch_mavlink_header fixC3).1 = PatchOutcome.applied ∧
    (strOf "    def pack(self, force_mavlink1=False):") ∈ splitNl fixC3 ∧
    occursIn (strOf "    def pack(self, force_mavlink1=False):")
      (patch_mavlink_header fixC3).2 = true := by decide

/-- C3 (amended): on a file without the marker whose line list splits as
prefix / signature line / consumed block lines / rest, the apply
succeeds, rewrites the file with the block replaced by the fixed code
(so the consumed original method lines are dropped from the method's
span, while lines textually shared with the replacement — signature and
docstring — reappear as part of it), the rewritten text contains the
marker token exactly once, and re-running apply returns ALREADY_APPLIED
with the text unchanged. -/
theorem C3_marker_once (content : Str) (pre : List Str) (sigLine : Str)
    (consumed post : List Str)
    (hmark : occursIn mavlinkMarker content = false)
    (hpat : occursIn originalPackPattern content = true)
    (hsplit : splitNl content = pre ++ sigLine :: (consumed ++ post))
    (hpre : ∀ l ∈ pre, occursIn packDefSig l = false)
    (hsig : occursIn packDefSig sigLine = true)
    (hcons : ∀ l ∈ consumed, occursIn packDefSig l = false ∧
      mavTerm (indentOf sigLine) l = false)
    (hpost : ∀ l ∈ post, occursIn packDefSig l = false) :
    patch_mavlink_header content
      = (PatchOutcome.applied,
         joinNl (pre ++ splitNl fixedPackCode
           ++ mavlinkScan post true (indentOf sigLine))) ∧
    countOcc mavlinkMarker (patch_mavlink_header content).2 = 1 ∧
    patch_mavlink_header (patch_mavlink_header content).2
      = (PatchOutcome.alreadyApplied, (patch_mavlink_header content).2) := by
  have heq : patch_mavlink_header content
      = (PatchOutcome.applied, joinNl (mavlinkScan (splitNl content) false 0)) := by
    simp [patch_mavlink_header, hmark, hpat]
  have hscan : mavlinkScan (splitNl content) false 0
      = pre ++ splitNl fixedPackCode
          ++ mavlinkScan post true (indentOf sigLine) := by
    rw [hsplit, mavScan_copy pre hpre _ 0,
      mavScan_insert sigLine _ false 0 hsig,
      mavScan_skip (indentOf sigLine) consumed hcons post,
      ← List.append_assoc]
  have hfull : patch_mavlink_header content
      = (PatchOutcome.applied,
         joinNl (pre ++ splitNl fixedPackCode
           ++ mavlinkScan post true (indentOf sigLine))) := by
    rw [heq, hscan]
  have hnlm : '\n' ∉ mavlinkMarker := by decide
  have hnem : mavlinkMarker ≠ [] := by decide
  have hline0 : ∀ l ∈ splitNl content, countOcc mavlinkMarker l = 0 := by
    intro l hl
    cases ho : occursIn mavlinkMarker l with
    | false => exact countOcc_eq_zero _ _ ho
    | true =>
      have hoc : occursIn mavlinkMarker content = true :=
        (occursIn_iff _ _).mpr
          (((occursIn_iff _ _).mp ho).trans (infix_of_mem_splitNl l content hl))
      rw [hoc] at hmark; cases hmark
  have hpre0 : (pre.map (countOcc mavlinkMarker)).sum = 0 := by
    apply List.sum_eq_zero
    intro x hx
    obtain ⟨l, hl, rfl⟩ := List.mem_map.mp hx
    exact hline0 l (by rw [hsplit]; exact List.mem_append_left _ hl)
  have hfix1 : ((splitNl fixedPackCode).map (countOcc mavlinkMarker)).sum = 1 := by
    have h := countOcc_joinNl mavlinkMarker hnlm hnem (splitNl fixedPackCode)
    rw [joinNl_splitNl] at h
    rw [← h]
    decide
  have hsub := mavScan_sublist post hpost true (indentOf sigLine)
  have hpost0 :
      ((mavlinkScan post true (indentOf sigLine)).map (countOcc mavlinkMarker)).sum
        = 0 := by
    apply List.sum_eq_zero
    intro x hx
    obtain ⟨l, hl, rfl⟩ := List.mem_map.mp hx
    have hlp : l ∈ post := hsub.subset hl
    exact hline0 l (by rw [hsplit]; exact List.mem_append_right _ (by simp [hlp]))
  have hc1 : countOcc mavlinkMarker (patch_mavlink_header content).2 = 1 := by
    rw [hfull]
    rw [countOcc_joinNl mavlinkMarker hnlm hnem]
    simp only [List.map_append, List.sum_append, hpre0, hfix1, hpost0]
  have hmOut : occursIn mavlinkMarker (patch_mavlink_header content).2 = true :=
    occursIn_of_countOcc_one _ _ hc1
  exact ⟨hfull, hc1, mavlink_already _ hmOut⟩

/-- Witness for C3 at the concrete 6-line-method fixture. -/
theorem C3_witness :
    patch_mavlink_header fixC3
      = (PatchOutcome.applied,
         joinNl ([strOf "class H:"] ++ splitNl fixedPackCode
           ++ mavlinkScan [strOf "    def other(self):", strOf "        pass"]
               true (indentOf (strOf "    def pack(self, force_mavlink1=False):")))) ∧
    countOcc mavlinkMarker (patch_mavlink_header fixC3).2 = 1 ∧
    patch_mavlink_header (patch_mavlink_header fixC3).2
      = (PatchOutcome.alreadyApplied, (patch_mavlink_header fixC3).2) :=
  C3_marker_once fixC3 [strOf "class H:"]
    (strOf "    def pack(self, force_mavlink1=False):")
    [strOf "        \"\"\"",
     strOf "        pack the MAVLink header into a byte string",
     strOf "        \"\"\"", strOf "        x = 1", strOf "        return 0"]
    [strOf "    def other(self):", strOf "        pass"]
    (by decide) (by decide) (by decide) (by decide) (by decide) (by decide)
    (by decide)

end Pyhula
